import Mathlib

/-!
Verification of the cli_monitor triangular-arbitrage core.

This file is a shallow embedding, in Lean 4, of the pure kernel of the
repository's arbitrage pipeline:

* `Cycle.calculate_profit` — src/cli_monitor/arbitrage/cycle.py
* `structure_cycles_and_get_pairs` — src/cli_monitor/common/utils.py
* `CycleFinder._find_cycles_dfs` — src/cli_monitor/arbitrage/cycle_finder.py
* `generate_whitelist` — src/cli_monitor/arbitrage/whitelist_generator.py
* `TradeExecutor._find_optimal_investment_amount` — src/cli_monitor/arbitrage/bot.py
* `ProfitMonitor.calculate_and_log_profit` and `_handle_websocket_message` —
  src/cli_monitor/arbitrage/profit_calculator.py
* `BinanceClient.get_exchange_info` — src/cli_monitor/common/binance_client.py

Python `Decimal` values are modelled as `ℚ` (exact rational arithmetic; every
decimal is a rational and none of the verified properties depends on rounding).
Python dictionaries are modelled as functions into `Option`.
-/

namespace CliMonitor

/-- Best bid `b` and best ask `a` for one trading pair, exactly the
`{'b': ..., 'a': ...}` records kept in `ProfitMonitor.latest_prices`. -/
structure PriceInfo where
  b : ℚ
  a : ℚ
  deriving DecidableEq

/-- The fields of one entry of Binance `exchange_info['symbols']` that the
profit kernel reads. -/
structure SymbolInfo where
  baseAsset : String
  quoteAsset : String
  status : String
  deriving DecidableEq

/-- One trade step of a structured cycle: the dict
`{"pair": ..., "from": ..., "to": ...}` built by
`structure_cycles_and_get_pairs`.  Python's `from`/`to` keys are named
`fromCoin`/`toCoin` (after the local variable `from_coin` in `cycle.py`). -/
structure Step where
  pair : String
  fromCoin : String
  toCoin : String
  deriving DecidableEq

/-- The `Cycle` value type of src/cli_monitor/arbitrage/cycle.py. -/
structure Cycle where
  coins : List String
  steps : List Step
  deriving DecidableEq

/-- The string form of a cycle, `' -> '.join(self.coins)`
(`Cycle.__str__`). -/
def Cycle.str (c : Cycle) : String :=
  String.intercalate " -> " c.coins

/-- The loop body of `Cycle.calculate_profit` (cycle.py lines 49-80): `amount`
starts at 1; per step, look up the pair in `symbols_info` and `prices` (a
missing key raises `KeyError`, modelled as `none`), take the fee for the pair
or the default `0.001`; a step whose `from` coin is the pair's quote asset is
a BUY — if the ask is 0 the whole computation returns `Decimal('0.0')` at
once, otherwise `amount` is divided by the ask — while any other step is a
SELL multiplying `amount` by the bid; after the price step `amount` is
multiplied by `1 - fee`.  After the loop the result is
`((amount - 1) / 1) * 100`. -/
def Cycle.calculate_profit_go (prices : String → Option PriceInfo)
    (symbols_info : String → Option SymbolInfo) (trade_fees : String → Option ℚ) :
    List Step → ℚ → Option ℚ
  | [], amount => some ((amount - 1) / 1 * 100)
  | step :: rest, amount =>
    match symbols_info step.pair with
    | none => none
    | some pair_info =>
      match prices step.pair with
      | none => none
      | some price_info =>
        let trading_fee := (trade_fees step.pair).getD (1 / 1000)
        if step.fromCoin = pair_info.quoteAsset then
          if price_info.a = 0 then some 0
          else Cycle.calculate_profit_go prices symbols_info trade_fees rest
            (amount / price_info.a * (1 - trading_fee))
        else
          Cycle.calculate_profit_go prices symbols_info trade_fees rest
            (amount * price_info.b * (1 - trading_fee))

/-- `Cycle.calculate_profit(self, prices, symbols_info, trade_fees)` from
src/cli_monitor/arbitrage/cycle.py: run the loop from `amount = 1`.
`none` models the `KeyError` the method raises on a missing pair. -/
def Cycle.calculate_profit (c : Cycle) (prices : String → Option PriceInfo)
    (symbols_info : String → Option SymbolInfo) (trade_fees : String → Option ℚ) : Option ℚ :=
  Cycle.calculate_profit_go prices symbols_info trade_fees c.steps 1

/-- The reference fold of claim C1, written from the claim's own words:
amount starts at 1; for each step, `fee = fees[step.pair]` if present else
`0.001`; a BUY step divides the amount by the ask and any other step
multiplies it by the bid; after each step the amount is multiplied by
`(1 - fee)`; the result is `(amount - 1) * 100`.  The claim's fold has no
zero-ask guard, so a zero ask is a division error (`Decimal` raises
`DivisionByZero`), modelled as `none`; a missing map entry is also `none`. -/
def referenceFoldGo (prices : String → Option PriceInfo)
    (symbols_info : String → Option SymbolInfo) (trade_fees : String → Option ℚ) :
    List Step → ℚ → Option ℚ
  | [], amount => some ((amount - 1) * 100)
  | step :: rest, amount =>
    match symbols_info step.pair, prices step.pair with
    | some pair_info, some price_info =>
      let fee := (trade_fees step.pair).getD (1 / 1000)
      if step.fromCoin = pair_info.quoteAsset then
        if price_info.a = 0 then none
        else referenceFoldGo prices symbols_info trade_fees rest
          (amount / price_info.a * (1 - fee))
      else
        referenceFoldGo prices symbols_info trade_fees rest
          (amount * price_info.b * (1 - fee))
    | _, _ => none

/-- The reference fold of claim C1 over a whole cycle. -/
def referenceFold (c : Cycle) (prices : String → Option PriceInfo)
    (symbols_info : String → Option SymbolInfo) (trade_fees : String → Option ℚ) : Option ℚ :=
  referenceFoldGo prices symbols_info trade_fees c.steps 1

/-- A step is a BUY against its symbol metadata when its `from` coin equals
the pair's quote asset (the branch condition of `calculate_profit`). -/
def Step.isBuy (s : Step) (symbols_info : String → Option SymbolInfo) : Prop :=
  ∃ pi ∈ symbols_info s.pair, s.fromCoin = pi.quoteAsset

section ProfitLemmas

variable (prices : String → Option PriceInfo) (symbols_info : String → Option SymbolInfo)
variable (trade_fees : String → Option ℚ)

theorem calculate_profit_go_eq_referenceFoldGo :
    ∀ (steps : List Step) (amount : ℚ),
      (∀ s ∈ steps, (symbols_info s.pair).isSome ∧ (prices s.pair).isSome) →
      (∀ s ∈ steps, ∀ pi ∈ symbols_info s.pair, ∀ p ∈ prices s.pair,
        s.fromCoin = pi.quoteAsset → p.a ≠ 0) →
      Cycle.calculate_profit_go prices symbols_info trade_fees steps amount =
        referenceFoldGo prices symbols_info trade_fees steps amount := by
  intro steps
  induction steps with
  | nil =>
    intro amount _ _
    simp [Cycle.calculate_profit_go, referenceFoldGo]
  | cons step rest ih =>
    intro amount hpres hask
    obtain ⟨hsi, hpr⟩ := hpres step (List.mem_cons_self _ _)
    obtain ⟨pi, hpi⟩ := Option.isSome_iff_exists.mp hsi
    obtain ⟨p, hp⟩ := Option.isSome_iff_exists.mp hpr
    have hpres' : ∀ s ∈ rest, (symbols_info s.pair).isSome ∧ (prices s.pair).isSome :=
      fun s hs => hpres s (List.mem_cons_of_mem _ hs)
    have hask' : ∀ s ∈ rest, ∀ pi' ∈ symbols_info s.pair, ∀ p' ∈ prices s.pair,
        s.fromCoin = pi'.quoteAsset → p'.a ≠ 0 :=
      fun s hs => hask s (List.mem_cons_of_mem _ hs)
    simp only [Cycle.calculate_profit_go, referenceFoldGo, hpi, hp]
    by_cases hbuy : step.fromCoin = pi.quoteAsset
    · have hne : p.a ≠ 0 := hask step (List.mem_cons_self _ _) pi (by simp [hpi]) p (by simp [hp]) hbuy
      simp only [hbuy, if_pos rfl, if_neg hne]
      exact ih _ hpres' hask'
    · simp only [if_neg hbuy]
      exact ih _ hpres' hask'

theorem calculate_profit_go_zero_ask :
    ∀ (steps : List Step) (amount : ℚ),
      (∀ s ∈ steps, (symbols_info s.pair).isSome ∧ (prices s.pair).isSome) →
      (∃ s ∈ steps, ∃ pi ∈ symbols_info s.pair, ∃ p ∈ prices s.pair,
        s.fromCoin = pi.quoteAsset ∧ p.a = 0) →
      Cycle.calculate_profit_go prices symbols_info trade_fees steps amount = some 0 := by
  intro steps
  induction steps with
  | nil =>
    intro amount _ hex
    obtain ⟨s, hs, -⟩ := hex
    exact absurd hs (List.not_mem_nil s)
  | cons step rest ih =>
    intro amount hpres hex
    obtain ⟨hsi, hpr⟩ := hpres step (List.mem_cons_self _ _)
    obtain ⟨pi, hpi⟩ := Option.isSome_iff_exists.mp hsi
    obtain ⟨p, hp⟩ := Option.isSome_iff_exists.mp hpr
    have hpres' : ∀ s ∈ rest, (symbols_info s.pair).isSome ∧ (prices s.pair).isSome :=
      fun s hs => hpres s (List.mem_cons_of_mem _ hs)
    simp only [Cycle.calculate_profit_go, hpi, hp]
    by_cases hbuy : step.fromCoin = pi.quoteAsset
    · by_cases hz : p.a = 0
      · simp [hbuy, hz]
      · simp only [hbuy, if_pos rfl, if_neg hz]
        apply ih _ hpres'
        obtain ⟨s, hs, pi', hpi', p', hp', hb', hz'⟩ := hex
        rcases List.mem_cons.mp hs with hhd | htl
        · subst hhd
          rw [hpi] at hpi'
          rw [hp] at hp'
          simp only [Option.mem_def, Option.some_inj] at hpi' hp'
          subst hpi'
          subst hp'
          exact absurd hz' hz
        · exact ⟨s, htl, pi', hpi', p', hp', hb', hz'⟩
    · simp only [if_neg hbuy]
      apply ih _ hpres'
      obtain ⟨s, hs, pi', hpi', p', hp', hb', hz'⟩ := hex
      rcases List.mem_cons.mp hs with hhd | htl
      · subst hhd
        rw [hpi] at hpi'
        simp only [Option.mem_def, Option.some_inj] at hpi'
        subst hpi'
        exact absurd hb' hbuy
      · exact ⟨s, htl, pi', hpi', p', hp', hb', hz'⟩

theorem calculate_profit_go_amount_zero :
    ∀ (steps : List Step),
      (∀ s ∈ steps, (symbols_info s.pair).isSome ∧ (prices s.pair).isSome) →
      (∀ s ∈ steps, ∀ pi ∈ symbols_info s.pair, ∀ p ∈ prices s.pair,
        s.fromCoin = pi.quoteAsset → p.a ≠ 0) →
      Cycle.calculate_profit_go prices symbols_info trade_fees steps 0 = some (-100) := by
  intro steps
  induction steps with
  | nil =>
    intro _ _
    norm_num [Cycle.calculate_profit_go]
  | cons step rest ih =>
    intro hpres hask
    obtain ⟨hsi, hpr⟩ := hpres step (List.mem_cons_self _ _)
    obtain ⟨pi, hpi⟩ := Option.isSome_iff_exists.mp hsi
    obtain ⟨p, hp⟩ := Option.isSome_iff_exists.mp hpr
    have hpres' : ∀ s ∈ rest, (symbols_info s.pair).isSome ∧ (prices s.pair).isSome :=
      fun s hs => hpres s (List.mem_cons_of_mem _ hs)
    have hask' : ∀ s ∈ rest, ∀ pi' ∈ symbols_info s.pair, ∀ p' ∈ prices s.pair,
        s.fromCoin = pi'.quoteAsset → p'.a ≠ 0 :=
      fun s hs => hask s (List.mem_cons_of_mem _ hs)
    simp only [Cycle.calculate_profit_go, hpi, hp]
    by_cases hbuy : step.fromCoin = pi.quoteAsset
    · have hne : p.a ≠ 0 := hask step (List.mem_cons_self _ _) pi (by simp [hpi]) p (by simp [hp]) hbuy
      simp only [hbuy, if_pos rfl, if_neg hne, zero_div, zero_mul]
      exact ih hpres' hask'
    · simp only [if_neg hbuy, zero_mul]
      exact ih hpres' hask'

theorem calculate_profit_go_zero_bid :
    ∀ (steps : List Step) (amount : ℚ),
      (∀ s ∈ steps, (symbols_info s.pair).isSome ∧ (prices s.pair).isSome) →
      (∀ s ∈ steps, ∀ pi ∈ symbols_info s.pair, ∀ p ∈ prices s.pair,
        s.fromCoin = pi.quoteAsset → p.a ≠ 0) →
      (∃ s ∈ steps, ∃ pi ∈ symbols_info s.pair, ∃ p ∈ prices s.pair,
        s.fromCoin ≠ pi.quoteAsset ∧ p.b = 0) →
      Cycle.calculate_profit_go prices symbols_info trade_fees steps amount = some (-100) := by
  intro steps
  induction steps with
  | nil =>
    intro amount _ _ hex
    obtain ⟨s, hs, -⟩ := hex
    exact absurd hs (List.not_mem_nil s)
  | cons step rest ih =>
    intro amount hpres hask hex
    obtain ⟨hsi, hpr⟩ := hpres step (List.mem_cons_self _ _)
    obtain ⟨pi, hpi⟩ := Option.isSome_iff_exists.mp hsi
    obtain ⟨p, hp⟩ := Option.isSome_iff_exists.mp hpr
    have hpres' : ∀ s ∈ rest, (symbols_info s.pair).isSome ∧ (prices s.pair).isSome :=
      fun s hs => hpres s (List.mem_cons_of_mem _ hs)
    have hask' : ∀ s ∈ rest, ∀ pi' ∈ symbols_info s.pair, ∀ p' ∈ prices s.pair,
        s.fromCoin = pi'.quoteAsset → p'.a ≠ 0 :=
      fun s hs => hask s (List.mem_cons_of_mem _ hs)
    simp only [Cycle.calculate_profit_go, hpi, hp]
    by_cases hbuy : step.fromCoin = pi.quoteAsset
    · have hne : p.a ≠ 0 := hask step (List.mem_cons_self _ _) pi (by simp [hpi]) p (by simp [hp]) hbuy
      simp only [hbuy, if_pos rfl, if_neg hne]
      apply ih _ hpres' hask'
      obtain ⟨s, hs, pi', hpi', p', hp', hb', hz'⟩ := hex
      rcases List.mem_cons.mp hs with hhd | htl
      · subst hhd
        rw [hpi] at hpi'
        simp only [Option.mem_def, Option.some_inj] at hpi'
        subst hpi'
        exact absurd hbuy hb'
      · exact ⟨s, htl, pi', hpi', p', hp', hb', hz'⟩
    · by_cases hz : p.b = 0
      · simp only [if_neg hbuy, hz, mul_zero, zero_mul]
        exact calculate_profit_go_amount_zero prices symbols_info trade_fees rest hpres' hask'
      · simp only [if_neg hbuy]
        apply ih _ hpres' hask'
        obtain ⟨s, hs, pi', hpi', p', hp', hb', hz'⟩ := hex
        rcases List.mem_cons.mp hs with hhd | htl
        · subst hhd
          rw [hp] at hp'
          simp only [Option.mem_def, Option.some_inj] at hp'
          subst hp'
          exact absurd hz' hz
        · exact ⟨s, htl, pi', hpi', p', hp', hb', hz'⟩

end ProfitLemmas

/-- The cycle of the boundary scenarios: `USDT → BTC → USDT` realized by the
single pair `BTCUSDT`, first step a BUY. -/
def cexCycle : Cycle :=
  { coins := ["USDT", "BTC", "USDT"]
    steps := [⟨"BTCUSDT", "USDT", "BTC"⟩, ⟨"BTCUSDT", "BTC", "USDT"⟩] }

/-- Symbol metadata for `cexCycle`. -/
def cexSymbols : String → Option SymbolInfo := fun p =>
  if p = "BTCUSDT" then some ⟨"BTC", "USDT", "TRADING"⟩ else none

/-- Prices for `cexCycle` with a zero ask on the BUY leg. -/
def cexZeroAskPrices : String → Option PriceInfo := fun p =>
  if p = "BTCUSDT" then some ⟨50000, 0⟩ else none

/-- C1 counterexample: with the `BTCUSDT` ask at 0 — a nonnegative decimal, so
inside the claim's preconditions — `Cycle.calculate_profit` returns `0` (the
early return of cycle.py line 69) while the claim's reference fold divides by
zero, so the two disagree and the claim as stated is false. -/
theorem calculate_profit_ne_referenceFold_at_zero_ask :
    Cycle.calculate_profit cexCycle cexZeroAskPrices cexSymbols (fun _ => none) = some 0 ∧
      referenceFold cexCycle cexZeroAskPrices cexSymbols (fun _ => none) = none := by
  constructor
  · decide
  · decide

/-- C1 (amended): whenever every step's pair is present in the metadata and
price maps and no BUY step has a zero ask price, `Cycle.calculate_profit`
equals the reference fold of the claim: amount starts at 1, a BUY step
divides by the ask, any other step multiplies by the bid, each step then
multiplies by `1 - fee` with `fee = fees[pair]` defaulting to `0.001`, and
the result is `(amount - 1) * 100`. -/
theorem calculate_profit_eq_referenceFold (c : Cycle) (prices : String → Option PriceInfo)
    (symbols_info : String → Option SymbolInfo) (trade_fees : String → Option ℚ)
    (hpres : ∀ s ∈ c.steps, (symbols_info s.pair).isSome ∧ (prices s.pair).isSome)
    (hask : ∀ s ∈ c.steps, ∀ pi ∈ symbols_info s.pair, ∀ p ∈ prices s.pair,
      s.fromCoin = pi.quoteAsset → p.a ≠ 0) :
    c.calculate_profit prices symbols_info trade_fees =
      referenceFold c prices symbols_info trade_fees :=
  calculate_profit_go_eq_referenceFoldGo prices symbols_info trade_fees c.steps 1 hpres hask

/-- Prices for `cexCycle` with both legs priced normally. -/
def cexNormalPrices : String → Option PriceInfo := fun p =>
  if p = "BTCUSDT" then some ⟨49999, 50000⟩ else none

/-- C1 witness: the amended theorem applied to the concrete two-step cycle
`USDT → BTC → USDT` with nonzero prices. -/
theorem calculate_profit_eq_referenceFold_witness :
    Cycle.calculate_profit cexCycle cexNormalPrices cexSymbols (fun _ => none) =
      referenceFold cexCycle cexNormalPrices cexSymbols (fun _ => none) :=
  calculate_profit_eq_referenceFold cexCycle cexNormalPrices cexSymbols (fun _ => none)
    (by decide) (by decide)

/-- C2: a cycle containing a BUY step (its `from` coin is the pair's quote
asset) whose ask price is 0 makes `Cycle.calculate_profit` return exactly 0,
for any prices of the other steps and any fee table (every step's pair being
present in both maps).  The embedding is total, so the `some 0` result also
witnesses that no division by zero is performed: the zero ask is caught by
the guard before the division. -/
theorem calculate_profit_zero_ask_eq_zero (c : Cycle) (prices : String → Option PriceInfo)
    (symbols_info : String → Option SymbolInfo) (trade_fees : String → Option ℚ)
    (hpres : ∀ s ∈ c.steps, (symbols_info s.pair).isSome ∧ (prices s.pair).isSome)
    (hzero : ∃ s ∈ c.steps, ∃ pi ∈ symbols_info s.pair, ∃ p ∈ prices s.pair,
      s.fromCoin = pi.quoteAsset ∧ p.a = 0) :
    c.calculate_profit prices symbols_info trade_fees = some 0 :=
  calculate_profit_go_zero_ask prices symbols_info trade_fees c.steps 1 hpres hzero

/-- C2 witness: the zero-ask scenario of the spec (`BTCUSDT ask=0` under the
`USDT → BTC → USDT` cycle) returns exactly 0. -/
theorem calculate_profit_zero_ask_eq_zero_witness :
    Cycle.calculate_profit cexCycle cexZeroAskPrices cexSymbols (fun _ => none) = some 0 :=
  calculate_profit_zero_ask_eq_zero cexCycle cexZeroAskPrices cexSymbols (fun _ => none)
    (by decide) (by decide)

/-- C10: when every BUY step of a cycle has a nonzero ask but some SELL step
(its `from` coin differs from the pair's quote asset) has bid price 0,
`Cycle.calculate_profit` returns exactly -100: the zero-price early return
guards only BUY asks, and the zero bid drives the amount to 0, which the
remaining steps preserve, ending at `(0 - 1) * 100`. -/
theorem calculate_profit_zero_bid_eq_neg_hundred (c : Cycle)
    (prices : String → Option PriceInfo) (symbols_info : String → Option SymbolInfo)
    (trade_fees : String → Option ℚ)
    (hpres : ∀ s ∈ c.steps, (symbols_info s.pair).isSome ∧ (prices s.pair).isSome)
    (hask : ∀ s ∈ c.steps, ∀ pi ∈ symbols_info s.pair, ∀ p ∈ prices s.pair,
      s.fromCoin = pi.quoteAsset → p.a ≠ 0)
    (hbid : ∃ s ∈ c.steps, ∃ pi ∈ symbols_info s.pair, ∃ p ∈ prices s.pair,
      s.fromCoin ≠ pi.quoteAsset ∧ p.b = 0) :
    c.calculate_profit prices symbols_info trade_fees = some (-100) :=
  calculate_profit_go_zero_bid prices symbols_info trade_fees c.steps 1 hpres hask hbid

/-- Prices for `cexCycle` with a zero bid on the SELL leg and a nonzero ask. -/
def cexZeroBidPrices : String → Option PriceInfo := fun p =>
  if p = "BTCUSDT" then some ⟨0, 50000⟩ else none

/-- C10 witness: the `USDT → BTC → USDT` cycle with `BTCUSDT bid=0` and a
normal ask loses everything: profit is exactly -100. -/
theorem calculate_profit_zero_bid_eq_neg_hundred_witness :
    Cycle.calculate_profit cexCycle cexZeroBidPrices cexSymbols (fun _ => none) = some (-100) :=
  calculate_profit_zero_bid_eq_neg_hundred cexCycle cexZeroBidPrices cexSymbols (fun _ => none)
    (by decide) (by decide) (by decide)

/-! ## Structuring enumerated cycles (src/cli_monitor/common/utils.py) -/

/-- The inner loop of `structure_cycles_and_get_pairs` (utils.py lines
121-140) on one coin list: for each adjacent pair of coins `(a, b)` the pair
symbol is `b ++ a` when that key exists in `symbols_info`, else `a ++ b`; the
cycle is invalid (`none`) when the chosen symbol is missing or its status is
not `TRADING`; otherwise the step `{"pair": symbol, "from": a, "to": b}` is
appended. -/
def structure_steps (symbols_info : String → Option SymbolInfo) :
    List String → Option (List Step)
  | [] => some []
  | [_] => some []
  | a :: b :: rest =>
    let pair_symbol := if (symbols_info (b ++ a)).isSome then b ++ a else a ++ b
    match symbols_info pair_symbol with
    | none => none
    | some info =>
      if info.status ≠ "TRADING" then none
      else
        match structure_steps symbols_info (b :: rest) with
        | none => none
        | some steps => some (⟨pair_symbol, a, b⟩ :: steps)

/-- `structure_cycles_and_get_pairs(cycles_coins, symbols_info)` from
src/cli_monitor/common/utils.py: keep the valid cycles (as `Cycle` values,
the way `load_cycles_and_map_pairs` wraps them) together with the set of all
trade pairs appearing in them (the Python `set`, modelled as a deduplicated
list). -/
def structure_cycles_and_get_pairs (cycles_coins : List (List String))
    (symbols_info : String → Option SymbolInfo) : List Cycle × List String :=
  let structured := cycles_coins.filterMap fun coins =>
    (structure_steps symbols_info coins).map fun steps => Cycle.mk coins steps
  (structured, (structured.flatMap fun c => c.steps.map Step.pair).dedup)

theorem structure_steps_maps (symbols_info : String → Option SymbolInfo) :
    ∀ (coins : List String) (steps : List Step),
      structure_steps symbols_info coins = some steps →
      steps.map Step.fromCoin = coins.dropLast ∧ steps.map Step.toCoin = coins.tail
  | [], steps, h => by
    simp only [structure_steps, Option.some_inj] at h
    subst h
    simp
  | [x], steps, h => by
    simp only [structure_steps, Option.some_inj] at h
    subst h
    simp
  | a :: b :: rest, steps, h => by
    simp only [structure_steps] at h
    rcases hsi : symbols_info (if (symbols_info (b ++ a)).isSome then b ++ a else a ++ b) with
      _ | info
    · simp only [hsi] at h
      exact absurd h (by simp)
    · simp only [hsi] at h
      by_cases hst : info.status ≠ "TRADING"
      · rw [if_pos hst] at h
        exact absurd h (by simp)
      · rw [if_neg hst] at h
        rcases hrec : structure_steps symbols_info (b :: rest) with _ | tail
        · rw [hrec] at h
          exact absurd h (by simp)
        · rw [hrec] at h
          simp only [Option.some_inj] at h
          subst h
          obtain ⟨ih1, ih2⟩ := structure_steps_maps symbols_info (b :: rest) tail hrec
          constructor
          · simp [List.dropLast, ih1]
          · simp [ih2]

theorem structure_steps_chain (symbols_info : String → Option SymbolInfo) :
    ∀ (coins : List String) (steps : List Step),
      structure_steps symbols_info coins = some steps →
      List.Chain' (fun s t => s.toCoin = t.fromCoin) steps
  | [], steps, h => by
    simp only [structure_steps, Option.some_inj] at h
    subst h
    exact List.chain'_nil
  | [x], steps, h => by
    simp only [structure_steps, Option.some_inj] at h
    subst h
    exact List.chain'_nil
  | a :: b :: rest, steps, h => by
    simp only [structure_steps] at h
    rcases hsi : symbols_info (if (symbols_info (b ++ a)).isSome then b ++ a else a ++ b) with
      _ | info
    · simp only [hsi] at h
      exact absurd h (by simp)
    · simp only [hsi] at h
      by_cases hst : info.status ≠ "TRADING"
      · rw [if_pos hst] at h
        exact absurd h (by simp)
      · rw [if_neg hst] at h
        rcases hrec : structure_steps symbols_info (b :: rest) with _ | tail
        · rw [hrec] at h
          exact absurd h (by simp)
        · rw [hrec] at h
          simp only [Option.some_inj] at h
          subst h
          have htail : List.Chain' (fun s t => s.toCoin = t.fromCoin) tail :=
            structure_steps_chain symbols_info (b :: rest) tail hrec
          apply List.chain'_cons'.mpr
          refine ⟨?_, htail⟩
          intro t ht
          obtain ⟨hfrom, -⟩ := structure_steps_maps symbols_info (b :: rest) tail hrec
          rcases tail with _ | ⟨t0, ttail⟩
          · simp at ht
          · simp only [List.head?_cons, Option.mem_def, Option.some_inj] at ht
            subst ht
            rcases rest with _ | ⟨r0, rrest⟩
            · simp at hfrom
            · simp only [List.map_cons, List.dropLast, List.cons.injEq] at hfrom
              exact hfrom.1.symm

/-- C8: every structured cycle built from an enumerated coin list
`[a0, ..., an]` with `a0 = an = base_currency` has a step list whose first
step starts at the base currency, whose last step ends at it, and in which
each step's `to` coin is the next step's `from` coin. -/
theorem structured_cycle_steps_invariant (symbols_info : String → Option SymbolInfo)
    (coins : List String) (base : String) (steps : List Step)
    (h : structure_steps symbols_info coins = some steps)
    (hhead : coins.head? = some base)
    (hlast : coins.getLast? = some base) :
    (∀ s0 ∈ steps.head?, s0.fromCoin = base) ∧
      (∀ sn ∈ steps.getLast?, sn.toCoin = base) ∧
      List.Chain' (fun s t => s.toCoin = t.fromCoin) steps := by
  obtain ⟨hfrom, hto⟩ := structure_steps_maps symbols_info coins steps h
  refine ⟨?_, ?_, structure_steps_chain symbols_info coins steps h⟩
  · intro s0 hs0
    rcases steps with _ | ⟨t0, ttail⟩
    · simp at hs0
    · simp only [List.head?_cons, Option.mem_def, Option.some_inj] at hs0
      subst hs0
      rcases coins with _ | ⟨c0, ctail⟩
      · simp at hfrom
      · rcases ctail with _ | ⟨c1, crest⟩
        · simp at hfrom
        · simp only [List.head?_cons, Option.some_inj] at hhead
          simp only [List.map_cons, List.dropLast, List.cons.injEq] at hfrom
          rw [hfrom.1, hhead]
  · intro sn hsn
    simp only [Option.mem_def] at hsn
    have hne : steps ≠ [] := by
      intro hnil
      rw [hnil] at hsn
      simp at hsn
    have htails : coins.tail.getLast? = some base := by
      rcases coins with _ | ⟨c0, ctail⟩
      · rw [List.dropLast_nil] at hfrom
        exact absurd (List.map_eq_nil_iff.mp hfrom) hne
      · rcases ctail with _ | ⟨c1, crest⟩
        · simp only [List.tail_cons] at hto
          exact absurd (List.map_eq_nil_iff.mp hto) hne
        · simp only [List.tail_cons]
          rw [List.getLast?_cons_cons] at hlast
          exact hlast
    have hmap : (steps.map Step.toCoin).getLast? = some base := by rw [hto, htails]
    rw [List.getLast?_map, hsn] at hmap
    simpa using hmap

/-- Symbol metadata for the triangle scenarios: `BTCUSDT`, `ETHBTC` and
`ETHUSDT`, all TRADING. -/
def triangleSymbols : String → Option SymbolInfo := fun p =>
  if p = "BTCUSDT" then some ⟨"BTC", "USDT", "TRADING"⟩
  else if p = "ETHBTC" then some ⟨"ETH", "BTC", "TRADING"⟩
  else if p = "ETHUSDT" then some ⟨"ETH", "USDT", "TRADING"⟩
  else none

/-- The step list `structure_steps` produces for `USDT → BTC → ETH → USDT`
against `triangleSymbols`. -/
def triangleSteps : List Step :=
  [⟨"BTCUSDT", "USDT", "BTC"⟩, ⟨"ETHBTC", "BTC", "ETH"⟩, ⟨"ETHUSDT", "ETH", "USDT"⟩]

/-- C8 witness: the triangle `USDT → BTC → ETH → USDT` structured against
concrete metadata satisfies the endpoint and chaining invariants. -/
theorem structured_cycle_steps_invariant_witness :
    (∀ s0 ∈ triangleSteps.head?, s0.fromCoin = "USDT") ∧
      (∀ sn ∈ triangleSteps.getLast?, sn.toCoin = "USDT") ∧
      List.Chain' (fun s t => s.toCoin = t.fromCoin) triangleSteps :=
  structured_cycle_steps_invariant triangleSymbols ["USDT", "BTC", "ETH", "USDT"] "USDT"
    triangleSteps (by decide) (by decide) (by decide)

/-! ## Cycle enumeration (src/cli_monitor/arbitrage/cycle_finder.py) -/

/-- The body of `CycleFinder._find_cycles_dfs` (cycle_finder.py lines 82-101).
The Python `while stack` loop pops the newest entry, skips paths longer than
`max_length`, and for each neighbor of the popped vertex either emits
`path + [neighbor]` as a cycle (when the neighbor is the start node and the
path already holds at least 3 assets) or pushes `(neighbor, path + [neighbor])`
when the neighbor is not yet on the path.  Pushing each new entry onto the
head of the stack in neighbor order reproduces Python's append-then-pop-last
order exactly.  The loop always terminates (every pushed path is
duplicate-free over the graph's finitely many vertices), which the embedding
expresses with a fuel argument: one unit per pop, and once the stack is empty
remaining fuel is irrelevant. -/
def find_cycles_dfs_loop (graph : List (String × List String)) (start_node : String)
    (max_length : ℕ) :
    ℕ → List (String × List String) → List (List String) → List (List String)
  | 0, _, cycles => cycles
  | _ + 1, [], cycles => cycles
  | fuel + 1, (vertex, path) :: stack, cycles =>
    if path.length > max_length then
      find_cycles_dfs_loop graph start_node max_length fuel stack cycles
    else
      let acc := ((graph.lookup vertex).getD []).foldl
        (fun (acc : List (String × List String) × List (List String)) neighbor =>
          if neighbor = start_node ∧ 3 ≤ path.length then
            (acc.1, acc.2 ++ [path ++ [neighbor]])
          else if neighbor ∉ path then
            ((neighbor, path ++ [neighbor]) :: acc.1, acc.2)
          else acc)
        ([], cycles)
      find_cycles_dfs_loop graph start_node max_length fuel (acc.1 ++ stack) acc.2

/-- The fuel of the embedded DFS: far more pops than the concrete graphs of
the verified scenarios can produce. -/
def dfsFuel : ℕ := 1000

/-- `CycleFinder._find_cycles_dfs(graph, start_node, max_length)`: run the
stack loop from `[(start_node, [start_node])]` with no cycles found yet. -/
def CycleFinder.find_cycles_dfs (graph : List (String × List String)) (start_node : String)
    (max_length : ℕ) : List (List String) :=
  find_cycles_dfs_loop graph start_node max_length dfsFuel [(start_node, [start_node])] []

/-- The adjacency graph of claim C4:
`USDT:{BTC,BNB}, BTC:{USDT,ETH}, ETH:{BTC}, BNB:{USDT}`. -/
def c4Graph : List (String × List String) :=
  [("USDT", ["BTC", "BNB"]), ("BTC", ["USDT", "ETH"]), ("ETH", ["BTC"]), ("BNB", ["USDT"])]

/-- C4 counterexample: on the claim's graph with `L = 3` the DFS emits no
cycle at all — in particular not the claimed set
`{[USDT,BTC,USDT], [USDT,BNB,USDT]}` — because the emission condition
`len(path) >= 3` (cycle_finder.py line 96) counts the assets on the path
before the closing vertex, so a 2-hop cycle can never be emitted. -/
theorem find_cycles_dfs_c4_counterexample :
    CycleFinder.find_cycles_dfs c4Graph "USDT" 3 = [] ∧
      ["USDT", "BTC", "USDT"] ∉ CycleFinder.find_cycles_dfs c4Graph "USDT" 3 ∧
      ["USDT", "BNB", "USDT"] ∉ CycleFinder.find_cycles_dfs c4Graph "USDT" 3 := by
  refine ⟨by decide, by decide, by decide⟩

/-- C4 (amended): on the claim's graph the DFS rooted at `USDT` emits the
empty set at `L = 3`, and the emitted set is unchanged (still empty) at
`L = 4`: the 2-hop cycles are blocked by the `len(path) >= 3` emission rule
and the revisit cycle `USDT→BTC→ETH→BTC→USDT` is blocked by the simple-cycle
rule (`neighbor not in path`). -/
theorem find_cycles_dfs_c4_amended :
    CycleFinder.find_cycles_dfs c4Graph "USDT" 3 = [] ∧
      CycleFinder.find_cycles_dfs c4Graph "USDT" 4 = [] := by
  refine ⟨by decide, by decide⟩

/-- The fully connected triangle graph over `USDT, BTC, ETH`, as
`_get_trading_pairs` builds it from the pairs `BTCUSDT`, `ETHUSDT`, `ETHBTC`. -/
def triangleGraph : List (String × List String) :=
  [("USDT", ["BTC", "ETH"]), ("BTC", ["USDT", "ETH"]), ("ETH", ["USDT", "BTC"])]

/-- Sanity check mirroring `tests/arbitrage/test_cycle_finder.py`: on the
triangle graph with `L = 3` the DFS emits exactly the two 3-hop cycles, so
the `len(path) >= 3` rule is indeed about assets on the path, not hops. -/
theorem find_cycles_dfs_triangle :
    CycleFinder.find_cycles_dfs triangleGraph "USDT" 3 =
      [["USDT", "ETH", "BTC", "USDT"], ["USDT", "BTC", "ETH", "USDT"]] := by
  decide

/-! ## Dry-run executor sizing (src/cli_monitor/arbitrage/bot.py) -/

/-- Trade direction of one leg. -/
inductive Side where
  | BUY
  | SELL
  deriving DecidableEq

/-- An L2 order book: bids sorted descending, asks ascending, each level a
`(price, qty)` pair. -/
structure OrderBook where
  bids : List (ℚ × ℚ)
  asks : List (ℚ × ℚ)
  deriving DecidableEq

/-- The BUY branch of `TradeExecutor._find_optimal_investment_amount`
(bot.py lines 114-129): walk the ask levels accumulating quantity and cost,
stopping at the first level whose slippage over the top-of-book price
exceeds `max_slippage_pct`. -/
def find_optimal_investment_loop_buy (max_slippage_pct first_price : ℚ) :
    List (ℚ × ℚ) → ℚ → ℚ → ℚ × ℚ
  | [], total_amount, total_cost => (total_amount, total_cost)
  | (price, qty) :: levels, total_amount, total_cost =>
    if (price - first_price) / first_price * 100 > max_slippage_pct then
      (total_amount, total_cost)
    else
      find_optimal_investment_loop_buy max_slippage_pct first_price levels
        (total_amount + qty) (total_cost + qty * price)

/-- The SELL branch of `TradeExecutor._find_optimal_investment_amount`
(bot.py lines 131-145), symmetric over the bids. -/
def find_optimal_investment_loop_sell (max_slippage_pct first_price : ℚ) :
    List (ℚ × ℚ) → ℚ → ℚ → ℚ × ℚ
  | [], total_amount, total_cost => (total_amount, total_cost)
  | (price, qty) :: levels, total_amount, total_cost =>
    if (first_price - price) / first_price * 100 > max_slippage_pct then
      (total_amount, total_cost)
    else
      find_optimal_investment_loop_sell max_slippage_pct first_price levels
        (total_amount + qty) (total_cost + qty * price)

/-- `TradeExecutor._find_optimal_investment_amount(order_book, side)`: for a
BUY walk the asks against the lowest ask and return the accumulated cost (in
quote units); for a SELL walk the bids against the highest bid and return the
accumulated amount (in base units); an empty side of the book yields 0. -/
def TradeExecutor.find_optimal_investment_amount (max_slippage_pct : ℚ)
    (order_book : OrderBook) (side : Side) : ℚ :=
  match side with
  | Side.BUY =>
    match order_book.asks with
    | [] => 0
    | (p0, _) :: _ =>
      (find_optimal_investment_loop_buy max_slippage_pct p0 order_book.asks 0 0).2
  | Side.SELL =>
    match order_book.bids with
    | [] => 0
    | (p0, _) :: _ =>
      (find_optimal_investment_loop_sell max_slippage_pct p0 order_book.bids 0 0).1

theorem find_optimal_investment_loop_buy_takeWhile (m f : ℚ) :
    ∀ (levels : List (ℚ × ℚ)) (ta tc : ℚ),
      (find_optimal_investment_loop_buy m f levels ta tc).2 =
        tc + ((levels.takeWhile fun l => decide ((l.1 - f) / f * 100 ≤ m)).map
          fun l => l.2 * l.1).sum := by
  intro levels
  induction levels with
  | nil =>
    intro ta tc
    simp [find_optimal_investment_loop_buy]
  | cons level rest ih =>
    intro ta tc
    obtain ⟨price, qty⟩ := level
    by_cases hslip : (price - f) / f * 100 > m
    · have hnot : ¬ ((price - f) / f * 100 ≤ m) := not_le.mpr hslip
      simp only [find_optimal_investment_loop_buy, if_pos hslip, List.takeWhile_cons]
      simp [hnot]
    · have hle : (price - f) / f * 100 ≤ m := not_lt.mp hslip
      simp only [find_optimal_investment_loop_buy, if_neg hslip, List.takeWhile_cons]
      rw [ih]
      simp [hle]
      ring

/-- C7: the first-leg BUY sizing walk.  First conjunct — the concrete book of
the spec, `asks = [(10,1), (10.005,1), (10.02,1)]` with
`max_slippage_pct = 0.1`: the walk accepts exactly the first two levels
(slippages 0 and 0.05% are within the cap, 0.2% is not) and the sized
notional is `10*1 + 10.005*1 = 20.005`.  Second conjunct — in general the
BUY walk's result is the cost of the longest prefix of ask levels whose
slippage against the top price stays within the cap: the walk stops at the
first level that exceeds it. -/
theorem find_optimal_investment_amount_spec :
    TradeExecutor.find_optimal_investment_amount (1/10)
        ⟨[], [(10, 1), (2001/200, 1), (501/50, 1)]⟩ Side.BUY = 4001/200 ∧
      ∀ (m p0 q0 : ℚ) (rest : List (ℚ × ℚ)) (bids : List (ℚ × ℚ)),
        TradeExecutor.find_optimal_investment_amount m ⟨bids, (p0, q0) :: rest⟩ Side.BUY =
          ((((p0, q0) :: rest).takeWhile fun l => decide ((l.1 - p0) / p0 * 100 ≤ m)).map
            fun l => l.2 * l.1).sum := by
  constructor
  · norm_num [TradeExecutor.find_optimal_investment_amount, find_optimal_investment_loop_buy]
  · intro m p0 q0 rest bids
    simp only [TradeExecutor.find_optimal_investment_amount]
    rw [find_optimal_investment_loop_buy_takeWhile]
    rw [zero_add]

/-! ## Whitelist generation (src/cli_monitor/arbitrage/whitelist_generator.py) -/

/-- Lexicographic comparison of character lists by Unicode code point, the
order Python's `sorted` uses on strings. -/
def charListLe : List Char → List Char → Bool
  | [], _ => true
  | _ :: _, [] => false
  | a :: as, b :: bs =>
    if a.toNat < b.toNat then true
    else if b.toNat < a.toNat then false
    else charListLe as bs

/-- Lexicographic string comparison by code points. -/
def strLeB (s t : String) : Bool := charListLe s.data t.data

/-- The propositional form of `strLeB`. -/
def strLe (s t : String) : Prop := strLeB s t = true

instance : DecidableRel strLe := fun s t => inferInstanceAs (Decidable (strLeB s t = true))

theorem charListLe_total : ∀ as bs, charListLe as bs = true ∨ charListLe bs as = true
  | [], _ => Or.inl rfl
  | _ :: _, [] => Or.inr rfl
  | a :: as, b :: bs => by
    by_cases hab : a.toNat < b.toNat
    · left
      simp [charListLe, hab]
    · by_cases hba : b.toNat < a.toNat
      · right
        simp [charListLe, hba]
      · rcases charListLe_total as bs with h | h
        · left
          simp [charListLe, hab, hba, h]
        · right
          simp [charListLe, hab, hba, h]

theorem charListLe_trans : ∀ as bs cs, charListLe as bs = true → charListLe bs cs = true →
    charListLe as cs = true
  | [], _, _, _, _ => rfl
  | a :: as, [], cs, hab, _ => by simp [charListLe] at hab
  | a :: as, b :: bs, [], _, hbc => by simp [charListLe] at hbc
  | a :: as, b :: bs, c :: cs, hab, hbc => by
    simp only [charListLe] at hab hbc ⊢
    by_cases h1 : a.toNat < b.toNat
    · by_cases h2 : b.toNat < c.toNat
      · have : a.toNat < c.toNat := h1.trans h2
        simp [this]
      · by_cases h3 : c.toNat < b.toNat
        · simp only [if_neg h2, if_pos h3] at hbc
          exact absurd hbc (by simp)
        · have hbc' : b.toNat = c.toNat := le_antisymm (not_lt.mp h3) (not_lt.mp h2)
          have : a.toNat < c.toNat := hbc' ▸ h1
          simp [this]
    · by_cases h4 : b.toNat < a.toNat
      · simp only [if_neg h1, if_pos h4] at hab
        exact absurd hab (by simp)
      · have hab' : a.toNat = b.toNat := le_antisymm (not_lt.mp h4) (not_lt.mp h1)
        simp only [if_neg h1, if_neg h4] at hab
        by_cases h2 : b.toNat < c.toNat
        · have : a.toNat < c.toNat := hab' ▸ h2
          simp [this]
        · by_cases h3 : c.toNat < b.toNat
          · simp only [if_neg h2, if_pos h3] at hbc
            exact absurd hbc (by simp)
          · have h5 : ¬ a.toNat < c.toNat := by
              rw [hab']
              exact h2
            have h6 : ¬ c.toNat < a.toNat := by
              rw [hab']
              exact h3
            simp only [if_neg h2, if_neg h3] at hbc
            simp only [if_neg h5, if_neg h6]
            exact charListLe_trans as bs cs hab hbc

instance : IsTotal String strLe :=
  ⟨fun s t => charListLe_total s.data t.data⟩

instance : IsTrans String strLe :=
  ⟨fun s t u => charListLe_trans s.data t.data u.data⟩

/-- Python `sorted(list(some_set))` over strings: drop duplicates, then sort
lexicographically. -/
def sorted_set (l : List String) : List String :=
  List.insertionSort strLe l.dedup

theorem sorted_set_sorted (l : List String) : List.Sorted strLe (sorted_set l) :=
  List.sorted_insertionSort strLe l.dedup

theorem sorted_set_nodup (l : List String) : (sorted_set l).Nodup :=
  ((List.perm_insertionSort strLe l.dedup).nodup_iff).mpr l.nodup_dedup

theorem mem_sorted_set (a : String) (l : List String) : a ∈ sorted_set l ↔ a ∈ l := by
  unfold sorted_set
  rw [List.Perm.mem_iff (List.perm_insertionSort strLe l.dedup)]
  exact List.mem_dedup

/-- One entry of `symbol_info['filters']`: its `filterType` and its
`minNotional` value (Python's `f.get('minNotional', '0')` default folded in). -/
structure SymbolFilter where
  filterType : String
  minNotional : ℚ
  deriving DecidableEq

/-- One entry of `exchange_info['symbols']` as `generate_whitelist` reads it. -/
structure ExchangeSymbol where
  symbol : String
  baseAsset : String
  quoteAsset : String
  status : String
  filters : List SymbolFilter
  deriving DecidableEq

/-- One surviving candidate pair (whitelist_generator.py lines 88-93). -/
structure WhitelistCandidate where
  symbol : String
  baseAsset : String
  quoteAsset : String
  quoteVolume : ℚ
  deriving DecidableEq

/-- The `min_notional` scan of whitelist_generator.py lines 78-82: the
`minNotional` of the first filter typed `MIN_NOTIONAL` or `NOTIONAL`,
defaulting to 0. -/
def getMinNotional (filters : List SymbolFilter) : ℚ :=
  ((filters.find? fun f =>
      f.filterType == "MIN_NOTIONAL" || f.filterType == "NOTIONAL").map
    SymbolFilter.minNotional).getD 0

/-- The candidate filter of `generate_whitelist` (lines 54-93): keep the
TRADING pairs anchored in `base_coins` whose 24h quote volume is known, at
least `min_volume_usd`, and not below a positive configured minimum
notional. -/
def whitelist_valid_pairs (symbols : List ExchangeSymbol)
    (ticker_map : String → Option ℚ) (base_coins : List String)
    (min_volume_usd : ℚ) : List WhitelistCandidate :=
  symbols.filterMap fun s =>
    if s.status ≠ "TRADING" then none
    else if ¬ (s.baseAsset ∈ base_coins ∨ s.quoteAsset ∈ base_coins) then none
    else
      match ticker_map s.symbol with
      | none => none
      | some volume_usd =>
        if volume_usd < min_volume_usd then none
        else if getMinNotional s.filters > 0 ∧ volume_usd < getMinNotional s.filters then none
        else some ⟨s.symbol, s.baseAsset, s.quoteAsset, volume_usd⟩

/-- Ranking by quote volume descending.  Python's
`sorted(valid_pairs, key=..., reverse=True)` is a stable sort under this
total preorder; `List.insertionSort` with this relation is stable in the
same way (an earlier element is inserted in front of every equal-volume
later element), so both produce the identical list. -/
def volumeDescRel (p q : WhitelistCandidate) : Prop :=
  q.quoteVolume ≤ p.quoteVolume

instance : DecidableRel volumeDescRel :=
  fun p q => inferInstanceAs (Decidable (q.quoteVolume ≤ p.quoteVolume))

instance : IsTotal WhitelistCandidate volumeDescRel :=
  ⟨fun p q => le_total q.quoteVolume p.quoteVolume⟩

instance : IsTrans WhitelistCandidate volumeDescRel :=
  ⟨fun _ _ _ hab hbc => le_trans hbc hab⟩

/-- `generate_whitelist` (whitelist_generator.py lines 40-116), its pure
core: filter the candidates, sort them by volume descending (stable), keep
the top `top_n_pairs`, and emit the sorted de-duplicated asset closure
(seeded with `base_coins`) and the sorted de-duplicated pair list. -/
def generate_whitelist (symbols : List ExchangeSymbol)
    (ticker_map : String → Option ℚ) (base_coins : List String)
    (min_volume_usd : ℚ) (top_n_pairs : ℕ) : List String × List String :=
  let valid_pairs := whitelist_valid_pairs symbols ticker_map base_coins min_volume_usd
  let sorted_pairs := List.insertionSort volumeDescRel valid_pairs
  let top_pairs := sorted_pairs.take top_n_pairs
  let whitelist_assets := base_coins ++ top_pairs.flatMap fun p => [p.baseAsset, p.quoteAsset]
  let whitelist_pairs := top_pairs.map WhitelistCandidate.symbol
  (sorted_set whitelist_assets, sorted_set whitelist_pairs)

/-- The ranking claim C6 asserts, from the claim's own words: quote volume
descending with ties broken by lexicographic symbol order. -/
def volumeDescLexRel (p q : WhitelistCandidate) : Prop :=
  q.quoteVolume < p.quoteVolume ∨ (p.quoteVolume = q.quoteVolume ∧ strLe p.symbol q.symbol)

instance : DecidableRel volumeDescLexRel := fun p q =>
  inferInstanceAs (Decidable (_ ∨ _))

/-- `generate_whitelist` as claim C6 describes it: identical except that the
ranking breaks volume ties by lexicographic symbol order. -/
def claim_generate_whitelist (symbols : List ExchangeSymbol)
    (ticker_map : String → Option ℚ) (base_coins : List String)
    (min_volume_usd : ℚ) (top_n_pairs : ℕ) : List String × List String :=
  let valid_pairs := whitelist_valid_pairs symbols ticker_map base_coins min_volume_usd
  let sorted_pairs := List.insertionSort volumeDescLexRel valid_pairs
  let top_pairs := sorted_pairs.take top_n_pairs
  let whitelist_assets := base_coins ++ top_pairs.flatMap fun p => [p.baseAsset, p.quoteAsset]
  let whitelist_pairs := top_pairs.map WhitelistCandidate.symbol
  (sorted_set whitelist_assets, sorted_set whitelist_pairs)

/-- The exchange symbols of the C6 counterexample: two TRADING pairs with
equal quote volume, listed in anti-lexicographic order. -/
def c6Symbols : List ExchangeSymbol :=
  [⟨"BBUSDT", "BB", "USDT", "TRADING", []⟩, ⟨"AAUSDT", "AA", "USDT", "TRADING", []⟩]

/-- Equal 24h quote volumes for the two C6 pairs. -/
def c6Tickers : String → Option ℚ := fun p =>
  if p = "BBUSDT" then some 100 else if p = "AAUSDT" then some 100 else none

/-- C6 counterexample: with two equal-volume candidates and `top_n = 1`,
Python's stable sort keeps the pair listed first in the exchange info
(`BBUSDT`), while the claim's lexicographic tie-break would keep `AAUSDT`;
the outputs differ, so ties are not broken by lexicographic symbol order. -/
theorem generate_whitelist_c6_counterexample :
    generate_whitelist c6Symbols c6Tickers ["USDT"] 0 1 = (["BB", "USDT"], ["BBUSDT"]) ∧
      claim_generate_whitelist c6Symbols c6Tickers ["USDT"] 0 1 = (["AA", "USDT"], ["AAUSDT"]) ∧
      (["BBUSDT"] : List String) ≠ ["AAUSDT"] := by
  refine ⟨by decide, by decide, by decide⟩

theorem filter_volume_orderedInsert (v : ℚ) (a : WhitelistCandidate) :
    ∀ l : List WhitelistCandidate,
      (List.orderedInsert volumeDescRel a l).filter (fun x => decide (x.quoteVolume = v)) =
        if a.quoteVolume = v then
          a :: l.filter (fun x => decide (x.quoteVolume = v))
        else l.filter (fun x => decide (x.quoteVolume = v))
  | [] => by
    by_cases h : a.quoteVolume = v
    · simp [List.orderedInsert, List.filter, h]
    · simp [List.orderedInsert, List.filter, h]
  | b :: l => by
    by_cases hr : volumeDescRel a b
    · simp only [List.orderedInsert, if_pos hr]
      by_cases h : a.quoteVolume = v
      · simp [List.filter, h]
      · simp [List.filter, h]
    · have hlt : a.quoteVolume < b.quoteVolume := lt_of_not_ge hr
      simp only [List.orderedInsert, if_neg hr]
      by_cases h : a.quoteVolume = v
      · have hb : ¬ (b.quoteVolume = v) := by
          intro hb
          rw [← h] at hb
          exact absurd hb.symm (ne_of_lt hlt)
        rw [List.filter_cons, List.filter_cons]
        simp only [hb, decide_eq_true_eq, decide_eq_false hb, Bool.false_eq_true, if_false]
        rw [filter_volume_orderedInsert v a l]
        try simp [h]
      · rw [List.filter_cons, List.filter_cons]
        rw [filter_volume_orderedInsert v a l]
        try simp [h]

/-- Stability of the volume ranking: for every volume value, the ranked list
keeps the equal-volume candidates in their input order. -/
theorem filter_volume_insertionSort (v : ℚ) :
    ∀ l : List WhitelistCandidate,
      (List.insertionSort volumeDescRel l).filter (fun x => decide (x.quoteVolume = v)) =
        l.filter (fun x => decide (x.quoteVolume = v))
  | [] => rfl
  | a :: l => by
    simp only [List.insertionSort]
    rw [filter_volume_orderedInsert]
    by_cases h : a.quoteVolume = v
    · rw [if_pos h, filter_volume_insertionSort v l, List.filter_cons]
      simp [h]
    · rw [if_neg h, filter_volume_insertionSort v l, List.filter_cons]
      simp [h]

/-- C6 (amended): whitelist generation is a deterministic (pure) function of
the exchange-info and ticker inputs; the surviving candidates are ranked by
quote volume descending with ties broken by the order in which the exchange
info lists them (Python's sort is stable), the top `N` are kept, and both
emitted lists are lexicographically sorted and duplicate-free, containing
exactly the symbols of the top `N` candidates (resp. the base coins plus the
assets of the top `N`). -/
theorem generate_whitelist_spec :
    (∀ symbols ticker_map base_coins min_volume_usd top_n_pairs,
      List.Sorted strLe
          (generate_whitelist symbols ticker_map base_coins min_volume_usd top_n_pairs).1 ∧
        (generate_whitelist symbols ticker_map base_coins min_volume_usd top_n_pairs).1.Nodup ∧
        List.Sorted strLe
          (generate_whitelist symbols ticker_map base_coins min_volume_usd top_n_pairs).2 ∧
        (generate_whitelist symbols ticker_map base_coins min_volume_usd top_n_pairs).2.Nodup) ∧
    (∀ symbols ticker_map base_coins min_volume_usd top_n_pairs (x : String),
      x ∈ (generate_whitelist symbols ticker_map base_coins min_volume_usd top_n_pairs).2 ↔
        x ∈ ((List.insertionSort volumeDescRel
            (whitelist_valid_pairs symbols ticker_map base_coins min_volume_usd)).take
          top_n_pairs).map WhitelistCandidate.symbol) ∧
    (∀ symbols ticker_map base_coins min_volume_usd,
      List.Sorted volumeDescRel
          (List.insertionSort volumeDescRel
            (whitelist_valid_pairs symbols ticker_map base_coins min_volume_usd)) ∧
        (List.insertionSort volumeDescRel
            (whitelist_valid_pairs symbols ticker_map base_coins min_volume_usd)).Perm
          (whitelist_valid_pairs symbols ticker_map base_coins min_volume_usd)) ∧
    (∀ symbols ticker_map base_coins min_volume_usd (v : ℚ),
      (List.insertionSort volumeDescRel
          (whitelist_valid_pairs symbols ticker_map base_coins min_volume_usd)).filter
          (fun x => decide (x.quoteVolume = v)) =
        (whitelist_valid_pairs symbols ticker_map base_coins min_volume_usd).filter
          (fun x => decide (x.quoteVolume = v))) := by
  refine ⟨?_, ?_, ?_, ?_⟩
  · intro symbols ticker_map base_coins min_volume_usd top_n_pairs
    exact ⟨sorted_set_sorted _, sorted_set_nodup _, sorted_set_sorted _, sorted_set_nodup _⟩
  · intro symbols ticker_map base_coins min_volume_usd top_n_pairs x
    exact mem_sorted_set x _
  · intro symbols ticker_map base_coins min_volume_usd
    exact ⟨List.sorted_insertionSort volumeDescRel _, List.perm_insertionSort volumeDescRel _⟩
  · intro symbols ticker_map base_coins min_volume_usd v
    exact filter_volume_insertionSort v _

/-! ## Streaming evaluator (src/cli_monitor/arbitrage/profit_calculator.py) -/

/-- An opportunity placed on `profitable_cycles_queue` by
`_log_profitable_opportunity` (the fields the executor reads; the price
snapshot is determined by the cycle and the state at enqueue time). -/
structure Opportunity where
  cycle_str : String
  profit_pct : ℚ
  deriving DecidableEq

/-- The mutable state of `ProfitMonitor` that the per-tick pipeline touches:
`latest_prices`, `latest_profits_by_cycle` (keyed by `str(cycle)`), and the
opportunity queue. -/
structure MonitorState where
  latest_prices : String → Option PriceInfo
  latest_profits_by_cycle : String → Option ℚ
  opportunities : List Opportunity

/-- `self.latest_prices[pair] = {...}`. -/
def updatePrice (prices : String → Option PriceInfo) (pair : String) (v : PriceInfo) :
    String → Option PriceInfo :=
  fun q => if q = pair then some v else prices q

/-- `self.latest_profits_by_cycle[cycle_str] = profit_pct`. -/
def updateProfit (profits : String → Option ℚ) (key : String) (v : ℚ) :
    String → Option ℚ :=
  fun q => if q = key then some v else profits q

/-- `ProfitMonitor.calculate_and_log_profit` (profit_calculator.py lines
165-185): return unchanged when some step's pair has no latest price; else
run `cycle.calculate_profit` — a `KeyError` (modelled `none`) is caught and
logged, leaving the state unchanged; on success store the profit under
`str(cycle)` and, when it exceeds the threshold, also enqueue an
opportunity. -/
def ProfitMonitor.calculate_and_log_profit (st : MonitorState) (cycle : Cycle)
    (symbols_info : String → Option SymbolInfo) (trade_fees : String → Option ℚ)
    (min_profit_threshold : ℚ) : MonitorState :=
  if cycle.steps.all (fun s => (st.latest_prices s.pair).isSome) then
    match cycle.calculate_profit st.latest_prices symbols_info trade_fees with
    | none => st
    | some profit_pct =>
      let st1 := { st with
        latest_profits_by_cycle :=
          updateProfit st.latest_profits_by_cycle cycle.str profit_pct }
      if min_profit_threshold < profit_pct then
        { st1 with opportunities := st1.opportunities ++ [⟨cycle.str, profit_pct⟩] }
      else st1
  else st

/-- One book-ticker frame as `_handle_websocket_message` parses it:
`data['s']`, `data['b']`, `data['a']`. -/
structure Frame where
  s : String
  b : ℚ
  a : ℚ
  deriving DecidableEq

/-- The `pair_to_cycles` reverse index built by `load_cycles_and_map_pairs`
(lines 90-95): every cycle is appended once per step that references the
pair, in cycle order. -/
def pair_to_cycles (cycles : List Cycle) (pair : String) : List Cycle :=
  cycles.flatMap fun c => (c.steps.filter fun s => s.pair == pair).map fun _ => c

/-- `ProfitMonitor._handle_websocket_message` (lines 187-196): store the
frame's bid/ask under its pair, then recompute every cycle the reverse index
lists for that pair. -/
def ProfitMonitor.handle_websocket_message (cycles : List Cycle)
    (symbols_info : String → Option SymbolInfo) (trade_fees : String → Option ℚ)
    (min_profit_threshold : ℚ) (st : MonitorState) (f : Frame) : MonitorState :=
  let st1 := { st with latest_prices := updatePrice st.latest_prices f.s ⟨f.b, f.a⟩ }
  (pair_to_cycles cycles f.s).foldl
    (fun acc c =>
      ProfitMonitor.calculate_and_log_profit acc c symbols_info trade_fees
        min_profit_threshold)
    st1

/-- Sequential processing of a list of frames by the per-tick pipeline. -/
def processFrames (cycles : List Cycle) (symbols_info : String → Option SymbolInfo)
    (trade_fees : String → Option ℚ) (min_profit_threshold : ℚ)
    (frames : List Frame) (st : MonitorState) : MonitorState :=
  frames.foldl
    (ProfitMonitor.handle_websocket_message cycles symbols_info trade_fees
      min_profit_threshold)
    st

/-- The price map a frame list leaves behind (the price component of the
pipeline, which never depends on the profit bookkeeping). -/
def pricesAfter (frames : List Frame) (prices : String → Option PriceInfo) :
    String → Option PriceInfo :=
  frames.foldl (fun pr f => updatePrice pr f.s ⟨f.b, f.a⟩) prices

/-- A frame touches a cycle when some step of the cycle trades the frame's
pair. -/
def Frame.touches (f : Frame) (c : Cycle) : Prop :=
  ∃ s ∈ c.steps, s.pair = f.s

instance (f : Frame) (c : Cycle) : Decidable (Frame.touches f c) :=
  inferInstanceAs (Decidable (∃ s ∈ c.steps, s.pair = f.s))

/-- The cycle of the C3 counterexample: two steps, the first a BUY on pair
`P`, the second on pair `Q`. -/
def c3Cycle : Cycle :=
  { coins := ["A", "B", "C"], steps := [⟨"P", "A", "B"⟩, ⟨"Q", "B", "C"⟩] }

/-- Metadata for the C3 counterexample: pair `Q` is missing. -/
def c3Symbols : String → Option SymbolInfo := fun p =>
  if p = "P" then some ⟨"B", "A", "TRADING"⟩ else none

/-- Evaluator state for the C3 counterexample: both pairs have prices, with a
zero ask on `P`. -/
def c3State : MonitorState :=
  { latest_prices := fun p =>
      if p = "P" then some ⟨1, 0⟩ else if p = "Q" then some ⟨1, 1⟩ else none
    latest_profits_by_cycle := fun _ => none
    opportunities := [] }

/-- C3 counterexample: pair `Q` of the cycle is missing from the symbol
metadata, yet `calculate_and_log_profit` records a profit for the cycle: the
zero ask on the BUY step `P` makes `calculate_profit` return `0` before the
loop reaches the missing-metadata step, so no `KeyError` is raised and
`latest_profits_by_cycle` is mutated for that tick. -/
theorem calculate_and_log_profit_c3_counterexample :
    (ProfitMonitor.calculate_and_log_profit c3State c3Cycle c3Symbols (fun _ => none)
          1).latest_profits_by_cycle "A -> B -> C" = some 0 ∧
      c3State.latest_profits_by_cycle "A -> B -> C" = none ∧
      c3Symbols "Q" = none := by
  refine ⟨by decide, by decide, by decide⟩

/-- C3 (amended): `calculate_and_log_profit` leaves the state entirely
unchanged — no profit stored, nothing enqueued, and (the embedding being
total) no error to the caller — whenever some step's pair is missing from
`latest_prices`, or the profit computation itself aborts on a missing lookup
(`calculate_profit` raises `KeyError`, i.e. returns `none`; a pair missing
only from the metadata behaves this way unless an earlier zero-ask BUY step
short-circuits the computation first). -/
theorem calculate_and_log_profit_skips (st : MonitorState) (cycle : Cycle)
    (symbols_info : String → Option SymbolInfo) (trade_fees : String → Option ℚ)
    (min_profit_threshold : ℚ)
    (h : (∃ s ∈ cycle.steps, st.latest_prices s.pair = none) ∨
      cycle.calculate_profit st.latest_prices symbols_info trade_fees = none) :
    ProfitMonitor.calculate_and_log_profit st cycle symbols_info trade_fees
      min_profit_threshold = st := by
  rcases h with ⟨s, hs, hnone⟩ | hcalc
  · have hall : ¬ (cycle.steps.all (fun s => (st.latest_prices s.pair).isSome) = true) := by
      intro hall
      have := List.all_eq_true.mp hall s hs
      rw [hnone] at this
      simp at this
    unfold ProfitMonitor.calculate_and_log_profit
    rw [if_neg hall]
  · unfold ProfitMonitor.calculate_and_log_profit
    by_cases hall : cycle.steps.all (fun s => (st.latest_prices s.pair).isSome) = true
    · rw [if_pos hall, hcalc]
    · rw [if_neg hall]

/-- Evaluator state for the C3 witness: no prices at all. -/
def c3EmptyState : MonitorState :=
  { latest_prices := fun _ => none
    latest_profits_by_cycle := fun _ => none
    opportunities := [] }

/-- C3 witness: with no price for pair `P`, the tick for the cycle is skipped
and the state is returned unchanged. -/
theorem calculate_and_log_profit_skips_witness :
    ProfitMonitor.calculate_and_log_profit c3EmptyState c3Cycle c3Symbols (fun _ => none) 1 =
      c3EmptyState :=
  calculate_and_log_profit_skips c3EmptyState c3Cycle c3Symbols (fun _ => none) 1
    (Or.inl ⟨⟨"P", "A", "B"⟩, by decide, by decide⟩)

section Evaluator

variable (cycles : List Cycle) (symbols_info : String → Option SymbolInfo)
variable (trade_fees : String → Option ℚ) (min_profit_threshold : ℚ)

theorem calculate_and_log_profit_prices (st : MonitorState) (c : Cycle) :
    (ProfitMonitor.calculate_and_log_profit st c symbols_info trade_fees
      min_profit_threshold).latest_prices = st.latest_prices := by
  unfold ProfitMonitor.calculate_and_log_profit
  split
  · split
    · rfl
    · split
      · rfl
      · rfl
  · rfl

theorem fold_calculate_and_log_profit_prices :
    ∀ (L : List Cycle) (st : MonitorState),
      ((L.foldl
          (fun acc c =>
            ProfitMonitor.calculate_and_log_profit acc c symbols_info trade_fees
              min_profit_threshold)
          st).latest_prices) = st.latest_prices
  | [], st => rfl
  | c1 :: L, st => by
    rw [List.foldl_cons]
    rw [fold_calculate_and_log_profit_prices L]
    exact calculate_and_log_profit_prices symbols_info trade_fees min_profit_threshold st c1

theorem handle_websocket_message_prices (st : MonitorState) (f : Frame) :
    (ProfitMonitor.handle_websocket_message cycles symbols_info trade_fees
        min_profit_threshold st f).latest_prices =
      updatePrice st.latest_prices f.s ⟨f.b, f.a⟩ := by
  unfold ProfitMonitor.handle_websocket_message
  rw [fold_calculate_and_log_profit_prices]

theorem processFrames_prices :
    ∀ (frames : List Frame) (st : MonitorState),
      (processFrames cycles symbols_info trade_fees min_profit_threshold frames
          st).latest_prices =
        pricesAfter frames st.latest_prices
  | [], st => rfl
  | f :: frames, st => by
    have ih :=
      processFrames_prices frames
        (ProfitMonitor.handle_websocket_message cycles symbols_info trade_fees
          min_profit_threshold st f)
    unfold processFrames pricesAfter at ih ⊢
    rw [List.foldl_cons, List.foldl_cons, ih]
    rw [handle_websocket_message_prices]

theorem pricesAfter_isSome_of_isSome :
    ∀ (frames : List Frame) (prices : String → Option PriceInfo) (q : String),
      (prices q).isSome → ((pricesAfter frames prices) q).isSome
  | [], prices, q, h => h
  | f :: frames, prices, q, h => by
    unfold pricesAfter
    rw [List.foldl_cons]
    apply pricesAfter_isSome_of_isSome frames (updatePrice prices f.s ⟨f.b, f.a⟩) q
    unfold updatePrice
    by_cases hq : q = f.s
    · simp [hq]
    · simp [hq, h]

theorem pricesAfter_eq_of_not_touched :
    ∀ (frames : List Frame) (prices : String → Option PriceInfo) (q : String),
      (∀ f ∈ frames, f.s ≠ q) → pricesAfter frames prices q = prices q
  | [], _, _, _ => rfl
  | f :: frames, prices, q, h => by
    unfold pricesAfter
    rw [List.foldl_cons]
    have hrec :=
      pricesAfter_eq_of_not_touched frames (updatePrice prices f.s ⟨f.b, f.a⟩) q
        (fun g hg => h g (List.mem_cons_of_mem _ hg))
    unfold pricesAfter at hrec
    rw [hrec]
    unfold updatePrice
    rw [if_neg]
    intro hq
    exact h f (List.mem_cons_self _ _) hq.symm

theorem calculate_profit_go_congr (pr1 pr2 : String → Option PriceInfo) :
    ∀ (steps : List Step) (amount : ℚ),
      (∀ s ∈ steps, pr1 s.pair = pr2 s.pair) →
      Cycle.calculate_profit_go pr1 symbols_info trade_fees steps amount =
        Cycle.calculate_profit_go pr2 symbols_info trade_fees steps amount
  | [], _, _ => rfl
  | step :: rest, amount, h => by
    have hstep := h step (List.mem_cons_self _ _)
    have hrest : ∀ s ∈ rest, pr1 s.pair = pr2 s.pair :=
      fun s hs => h s (List.mem_cons_of_mem _ hs)
    rcases hsi : symbols_info step.pair with _ | pi
    · simp only [Cycle.calculate_profit_go, hstep, hsi]
    · rcases hp : pr2 step.pair with _ | p
      · simp only [Cycle.calculate_profit_go, hstep, hsi, hp]
      · simp only [Cycle.calculate_profit_go, hstep, hsi, hp]
        by_cases hbuy : step.fromCoin = pi.quoteAsset
        · rw [if_pos hbuy, if_pos hbuy]
          by_cases hz : p.a = 0
          · rw [if_pos hz, if_pos hz]
          · rw [if_neg hz, if_neg hz]
            exact calculate_profit_go_congr pr1 pr2 rest _ hrest
        · rw [if_neg hbuy, if_neg hbuy]
          exact calculate_profit_go_congr pr1 pr2 rest _ hrest

theorem calculate_profit_go_isSome (prices : String → Option PriceInfo) :
    ∀ (steps : List Step) (amount : ℚ),
      (∀ s ∈ steps, (symbols_info s.pair).isSome) →
      (∀ s ∈ steps, (prices s.pair).isSome) →
      (Cycle.calculate_profit_go prices symbols_info trade_fees steps amount).isSome
  | [], _, _, _ => rfl
  | step :: rest, amount, hsi, hpr => by
    obtain ⟨pi, hpi⟩ := Option.isSome_iff_exists.mp (hsi step (List.mem_cons_self _ _))
    obtain ⟨p, hp⟩ := Option.isSome_iff_exists.mp (hpr step (List.mem_cons_self _ _))
    have hsi' : ∀ s ∈ rest, (symbols_info s.pair).isSome :=
      fun s hs => hsi s (List.mem_cons_of_mem _ hs)
    have hpr' : ∀ s ∈ rest, (prices s.pair).isSome :=
      fun s hs => hpr s (List.mem_cons_of_mem _ hs)
    simp only [Cycle.calculate_profit_go, hpi, hp]
    by_cases hbuy : step.fromCoin = pi.quoteAsset
    · rw [if_pos hbuy]
      by_cases hz : p.a = 0
      · rw [if_pos hz]
        rfl
      · rw [if_neg hz]
        exact calculate_profit_go_isSome prices rest _ hsi' hpr'
    · rw [if_neg hbuy]
      exact calculate_profit_go_isSome prices rest _ hsi' hpr'

/-- The effect of one `calculate_and_log_profit` call on the profit slot of
the cycle it recomputes, as a function of the price map and the slot's old
value: a guarded overwrite (proof artifact used to characterize the fold). -/
def profitSlot (prices : String → Option PriceInfo) (c : Cycle)
    (si : String → Option SymbolInfo) (fees : String → Option ℚ)
    (old : Option ℚ) : Option ℚ :=
  if c.steps.all (fun s => (prices s.pair).isSome) then
    match c.calculate_profit prices si fees with
    | none => old
    | some v => some v
  else old

theorem calculate_and_log_profit_profits_self (st : MonitorState) (c : Cycle) :
    (ProfitMonitor.calculate_and_log_profit st c symbols_info trade_fees
        min_profit_threshold).latest_profits_by_cycle c.str =
      profitSlot st.latest_prices c symbols_info trade_fees
        (st.latest_profits_by_cycle c.str) := by
  unfold ProfitMonitor.calculate_and_log_profit profitSlot
  by_cases hall : c.steps.all (fun s => (st.latest_prices s.pair).isSome) = true
  · rw [if_pos hall, if_pos hall]
    rcases hc : c.calculate_profit st.latest_prices symbols_info trade_fees with _ | v
    · rfl
    · dsimp only
      by_cases hth : min_profit_threshold < v
      · rw [if_pos hth]
        simp [updateProfit]
      · rw [if_neg hth]
        simp [updateProfit]
  · rw [if_neg hall, if_neg hall]

theorem calculate_and_log_profit_profits_ne (st : MonitorState) (c : Cycle) (q : String)
    (h : c.str ≠ q) :
    (ProfitMonitor.calculate_and_log_profit st c symbols_info trade_fees
        min_profit_threshold).latest_profits_by_cycle q =
      st.latest_profits_by_cycle q := by
  unfold ProfitMonitor.calculate_and_log_profit
  by_cases hall : c.steps.all (fun s => (st.latest_prices s.pair).isSome) = true
  · rw [if_pos hall]
    rcases hc : c.calculate_profit st.latest_prices symbols_info trade_fees with _ | v
    · rfl
    · dsimp only
      by_cases hth : min_profit_threshold < v
      · rw [if_pos hth]
        show updateProfit st.latest_profits_by_cycle c.str v q = st.latest_profits_by_cycle q
        unfold updateProfit
        rw [if_neg (fun hq => h hq.symm)]
      · rw [if_neg hth]
        show updateProfit st.latest_profits_by_cycle c.str v q = st.latest_profits_by_cycle q
        unfold updateProfit
        rw [if_neg (fun hq => h hq.symm)]
  · rw [if_neg hall]

theorem profitSlot_idem (pr : String → Option PriceInfo) (c : Cycle)
    (si : String → Option SymbolInfo) (fees : String → Option ℚ) (old : Option ℚ) :
    profitSlot pr c si fees (profitSlot pr c si fees old) =
      profitSlot pr c si fees old := by
  unfold profitSlot
  by_cases hall : c.steps.all (fun s => (pr s.pair).isSome) = true
  · rw [if_pos hall, if_pos hall]
    rcases hc : c.calculate_profit pr si fees with _ | v
    · simp only [hc]
    · simp only [hc]
  · rw [if_neg hall, if_neg hall]

theorem mem_cycles_of_mem_pair_to_cycles {c2 : Cycle} {p : String}
    (h : c2 ∈ pair_to_cycles cycles p) : c2 ∈ cycles ∧ ∃ s ∈ c2.steps, s.pair = p := by
  unfold pair_to_cycles at h
  rw [List.mem_flatMap] at h
  obtain ⟨c1, hc1, hmem⟩ := h
  rw [List.mem_map] at hmem
  obtain ⟨s, hs, heq⟩ := hmem
  subst heq
  rw [List.mem_filter] at hs
  exact ⟨hc1, s, hs.1, by simpa using hs.2⟩

theorem mem_pair_to_cycles {c : Cycle} {p : String} (hc : c ∈ cycles) {s : Step}
    (hs : s ∈ c.steps) (hp : s.pair = p) : c ∈ pair_to_cycles cycles p := by
  unfold pair_to_cycles
  rw [List.mem_flatMap]
  exact ⟨c, hc, List.mem_map.mpr ⟨s, List.mem_filter.mpr ⟨hs, by simp [hp]⟩, rfl⟩⟩

theorem fold_calculate_and_log_profit_ne :
    ∀ (L : List Cycle) (st : MonitorState) (q : String),
      (∀ c2 ∈ L, c2.str ≠ q) →
      ((L.foldl
          (fun acc c =>
            ProfitMonitor.calculate_and_log_profit acc c symbols_info trade_fees
              min_profit_threshold)
          st).latest_profits_by_cycle q) = st.latest_profits_by_cycle q
  | [], _, _, _ => rfl
  | c1 :: L, st, q, h => by
    rw [List.foldl_cons]
    rw [fold_calculate_and_log_profit_ne L _ q
      (fun c2 hc2 => h c2 (List.mem_cons_of_mem _ hc2))]
    exact calculate_and_log_profit_profits_ne symbols_info trade_fees min_profit_threshold
      st c1 q (h c1 (List.mem_cons_self _ _))

theorem fold_calculate_and_log_profit_self :
    ∀ (L : List Cycle) (st : MonitorState) (c : Cycle),
      c ∈ L → (∀ c2 ∈ L, c2.str = c.str → c2 = c) →
      ((L.foldl
          (fun acc c2 =>
            ProfitMonitor.calculate_and_log_profit acc c2 symbols_info trade_fees
              min_profit_threshold)
          st).latest_profits_by_cycle c.str) =
        profitSlot st.latest_prices c symbols_info trade_fees
          (st.latest_profits_by_cycle c.str)
  | [], _, _, hc, _ => absurd hc (List.not_mem_nil _)
  | c1 :: L, st, c, hc, hinj => by
    rw [List.foldl_cons]
    by_cases hceq : c1 = c
    · subst hceq
      by_cases hmem : c1 ∈ L
      · rw [fold_calculate_and_log_profit_self L _ c1 hmem
          (fun c2 hc2 h => hinj c2 (List.mem_cons_of_mem _ hc2) h)]
        rw [calculate_and_log_profit_prices]
        rw [calculate_and_log_profit_profits_self]
        exact profitSlot_idem st.latest_prices c1 symbols_info trade_fees _
      · rw [fold_calculate_and_log_profit_ne symbols_info trade_fees min_profit_threshold
          L _ c1.str ?hnotin]
        case hnotin =>
          intro c2 hc2 hstr
          exact hmem (hinj c2 (List.mem_cons_of_mem _ hc2) hstr ▸ hc2)
        exact calculate_and_log_profit_profits_self symbols_info trade_fees
          min_profit_threshold st c1
    · have hne : c1.str ≠ c.str := fun h => hceq (hinj c1 (List.mem_cons_self _ _) h)
      have hcL : c ∈ L := by
        rcases List.mem_cons.mp hc with h | h
        · exact absurd h.symm hceq
        · exact h
      rw [fold_calculate_and_log_profit_self L _ c hcL
        (fun c2 hc2 h => hinj c2 (List.mem_cons_of_mem _ hc2) h)]
      rw [calculate_and_log_profit_prices]
      rw [calculate_and_log_profit_profits_ne symbols_info trade_fees min_profit_threshold
        st c1 c.str hne]

theorem handle_websocket_message_profits_self (st : MonitorState) (f : Frame) (c : Cycle)
    (hc : c ∈ cycles) (hinj : ∀ c2 ∈ cycles, c2.str = c.str → c2 = c)
    (ht : Frame.touches f c) :
    (ProfitMonitor.handle_websocket_message cycles symbols_info trade_fees
        min_profit_threshold st f).latest_profits_by_cycle c.str =
      profitSlot (updatePrice st.latest_prices f.s ⟨f.b, f.a⟩) c symbols_info trade_fees
        (st.latest_profits_by_cycle c.str) := by
  obtain ⟨s, hs, hp⟩ := ht
  unfold ProfitMonitor.handle_websocket_message
  rw [fold_calculate_and_log_profit_self symbols_info trade_fees min_profit_threshold
    (pair_to_cycles cycles f.s) _ c (mem_pair_to_cycles cycles hc hs hp)
    (fun c2 hc2 h => hinj c2 (mem_cycles_of_mem_pair_to_cycles cycles hc2).1 h)]

theorem handle_websocket_message_profits_ne (st : MonitorState) (f : Frame) (c : Cycle)
    (hinj : ∀ c2 ∈ cycles, c2.str = c.str → c2 = c)
    (ht : ¬ Frame.touches f c) :
    (ProfitMonitor.handle_websocket_message cycles symbols_info trade_fees
        min_profit_threshold st f).latest_profits_by_cycle c.str =
      st.latest_profits_by_cycle c.str := by
  unfold ProfitMonitor.handle_websocket_message
  rw [fold_calculate_and_log_profit_ne symbols_info trade_fees min_profit_threshold
    (pair_to_cycles cycles f.s) _ c.str ?hnotin]
  case hnotin =>
    intro c2 hc2 hstr
    obtain ⟨hc2mem, s, hs, hp⟩ := mem_cycles_of_mem_pair_to_cycles cycles hc2
    have hc2c : c2 = c := hinj c2 hc2mem hstr
    subst hc2c
    exact absurd ⟨s, hs, hp⟩ ht

theorem processFrames_profits_no_owner :
    ∀ (frames : List Frame) (st : MonitorState) (q : String),
      (∀ c2 ∈ cycles, c2.str ≠ q) →
      (processFrames cycles symbols_info trade_fees min_profit_threshold frames
          st).latest_profits_by_cycle q = st.latest_profits_by_cycle q
  | [], _, _, _ => rfl
  | f :: frames, st, q, h => by
    have ih :=
      processFrames_profits_no_owner frames
        (ProfitMonitor.handle_websocket_message cycles symbols_info trade_fees
          min_profit_threshold st f) q h
    unfold processFrames at ih ⊢
    rw [List.foldl_cons, ih]
    unfold ProfitMonitor.handle_websocket_message
    rw [fold_calculate_and_log_profit_ne symbols_info trade_fees min_profit_threshold
      (pair_to_cycles cycles f.s) _ q ?hnotin]
    case hnotin =>
      intro c2 hc2 hstr
      exact h c2 (mem_cycles_of_mem_pair_to_cycles cycles hc2).1 hstr

/-- The shape of a cycle's profit slot after a frame list is processed: when
some frame touched the cycle and every one of its pairs is priced in the
final map, the slot holds exactly the profit computed from the final prices;
otherwise it is untouched.  (Requires that the cycle owns its key and that
its metadata is complete — both guaranteed by `load_cycles_and_map_pairs`,
which structures every monitored cycle against `symbols_info`.) -/
theorem processFrames_profits_char (c : Cycle) (hc : c ∈ cycles)
    (hinj : ∀ c2 ∈ cycles, c2.str = c.str → c2 = c)
    (hsi : ∀ s ∈ c.steps, (symbols_info s.pair).isSome) :
    ∀ (frames : List Frame) (st : MonitorState),
      (processFrames cycles symbols_info trade_fees min_profit_threshold frames
          st).latest_profits_by_cycle c.str =
        if (∃ f ∈ frames, Frame.touches f c) ∧
            (∀ s ∈ c.steps, ((pricesAfter frames st.latest_prices) s.pair).isSome) then
          c.calculate_profit (pricesAfter frames st.latest_prices) symbols_info trade_fees
        else st.latest_profits_by_cycle c.str
  | [], st => by
    rw [if_neg]
    · rfl
    · rintro ⟨⟨f, hf, -⟩, -⟩
      exact List.not_mem_nil f hf
  | f :: frames, st => by
    have ih :=
      processFrames_profits_char c hc hinj hsi frames
        (ProfitMonitor.handle_websocket_message cycles symbols_info trade_fees
          min_profit_threshold st f)
    unfold processFrames at ih ⊢
    rw [List.foldl_cons, ih]
    have hpr : pricesAfter frames
        (ProfitMonitor.handle_websocket_message cycles symbols_info trade_fees
          min_profit_threshold st f).latest_prices =
        pricesAfter (f :: frames) st.latest_prices := by
      rw [handle_websocket_message_prices]
      unfold pricesAfter
      rw [List.foldl_cons]
    rw [hpr]
    by_cases hG : ∀ s ∈ c.steps,
        ((pricesAfter (f :: frames) st.latest_prices) s.pair).isSome
    · by_cases hA : ∃ g ∈ frames, Frame.touches g c
      · rw [if_pos ⟨hA, hG⟩]
        rcases hA with ⟨g, hg, hgt⟩
        rw [if_pos ⟨⟨g, List.mem_cons_of_mem _ hg, hgt⟩, hG⟩]
      · by_cases hB : Frame.touches f c
        · rw [if_neg (fun h => hA h.1), if_pos ⟨⟨f, List.mem_cons_self _ _, hB⟩, hG⟩]
          rw [handle_websocket_message_profits_self cycles symbols_info trade_fees
            min_profit_threshold st f c hc hinj hB]
          have hagree : ∀ s ∈ c.steps,
              pricesAfter (f :: frames) st.latest_prices s.pair =
                updatePrice st.latest_prices f.s ⟨f.b, f.a⟩ s.pair := by
            intro s hs
            have hsplit : pricesAfter (f :: frames) st.latest_prices s.pair =
                pricesAfter frames (updatePrice st.latest_prices f.s ⟨f.b, f.a⟩) s.pair := by
              unfold pricesAfter
              rw [List.foldl_cons]
            rw [hsplit]
            apply pricesAfter_eq_of_not_touched
            intro g hg hgs
            exact hA ⟨g, hg, s, hs, hgs.symm⟩
          have hallp1 : (c.steps.all
              (fun s => ((updatePrice st.latest_prices f.s ⟨f.b, f.a⟩) s.pair).isSome)) =
              true := by
            rw [List.all_eq_true]
            intro s hs
            rw [← hagree s hs]
            exact hG s hs
          have hcalc : c.calculate_profit (updatePrice st.latest_prices f.s ⟨f.b, f.a⟩)
              symbols_info trade_fees =
              c.calculate_profit (pricesAfter (f :: frames) st.latest_prices)
                symbols_info trade_fees := by
            unfold Cycle.calculate_profit
            exact calculate_profit_go_congr symbols_info trade_fees _ _ c.steps 1
              (fun s hs => (hagree s hs).symm)
          unfold profitSlot
          rw [if_pos hallp1, hcalc]
          have hsome : (c.calculate_profit (pricesAfter (f :: frames) st.latest_prices)
              symbols_info trade_fees).isSome := by
            unfold Cycle.calculate_profit
            exact calculate_profit_go_isSome symbols_info trade_fees _ c.steps 1 hsi hG
          rcases hopt : c.calculate_profit (pricesAfter (f :: frames) st.latest_prices)
              symbols_info trade_fees with _ | v
          · rw [hopt] at hsome
            exact absurd hsome (by simp)
          · simp only [hopt]
        · have hcond : ¬ ((∃ g ∈ f :: frames, Frame.touches g c) ∧
              ∀ s ∈ c.steps,
                ((pricesAfter (f :: frames) st.latest_prices) s.pair).isSome) := by
            rintro ⟨⟨g, hg, hgt⟩, -⟩
            rcases List.mem_cons.mp hg with hgf | hgm
            · exact hB (hgf ▸ hgt)
            · exact hA ⟨g, hgm, hgt⟩
          rw [if_neg (fun h => hA h.1), if_neg hcond]
          exact handle_websocket_message_profits_ne cycles symbols_info trade_fees
            min_profit_threshold st f c hinj hB
    · rw [if_neg (fun h => hG h.2), if_neg (fun h => hG h.2)]
      by_cases hB : Frame.touches f c
      · rw [handle_websocket_message_profits_self cycles symbols_info trade_fees
          min_profit_threshold st f c hc hinj hB]
        unfold profitSlot
        rw [if_neg]
        intro hallp1
        apply hG
        intro s hs
        have h1 := List.all_eq_true.mp hallp1 s hs
        have hsplit : pricesAfter (f :: frames) st.latest_prices s.pair =
            pricesAfter frames (updatePrice st.latest_prices f.s ⟨f.b, f.a⟩) s.pair := by
          unfold pricesAfter
          rw [List.foldl_cons]
        rw [hsplit]
        exact pricesAfter_isSome_of_isSome frames _ s.pair h1
      · exact handle_websocket_message_profits_ne cycles symbols_info trade_fees
          min_profit_threshold st f c hinj hB

end Evaluator

/-- C5: for any two frame lists that are permutations of each other and whose
sequential processing by the per-tick pipeline (update `latest_prices[pair]`,
then recompute every cycle referencing that pair) ends in the same final
price map, the resulting `latest_profits_by_cycle` maps are identical (at
every key).  The hypotheses `hsi` and `hinj` record two facts the monitor's
setup guarantees for its structured cycles: every referenced pair is present
in the symbol metadata (`structure_cycles_and_get_pairs` drops any cycle
with a missing pair), and distinct monitored cycles have distinct string
keys. -/
theorem processFrames_perm_invariant (cycles : List Cycle)
    (symbols_info : String → Option SymbolInfo) (trade_fees : String → Option ℚ)
    (min_profit_threshold : ℚ) (st0 : MonitorState) (l1 l2 : List Frame)
    (hperm : l1.Perm l2)
    (hsi : ∀ c ∈ cycles, ∀ s ∈ c.steps, (symbols_info s.pair).isSome)
    (hinj : ∀ c1 ∈ cycles, ∀ c2 ∈ cycles, c1.str = c2.str → c1 = c2)
    (hfinal : ∀ q, (processFrames cycles symbols_info trade_fees min_profit_threshold
          l1 st0).latest_prices q =
        (processFrames cycles symbols_info trade_fees min_profit_threshold
          l2 st0).latest_prices q)
    (q : String) :
    (processFrames cycles symbols_info trade_fees min_profit_threshold
        l1 st0).latest_profits_by_cycle q =
      (processFrames cycles symbols_info trade_fees min_profit_threshold
        l2 st0).latest_profits_by_cycle q := by
  have hfinal' : ∀ q', pricesAfter l1 st0.latest_prices q' =
      pricesAfter l2 st0.latest_prices q' := by
    intro q'
    have h1 := processFrames_prices cycles symbols_info trade_fees min_profit_threshold
      l1 st0
    have h2 := processFrames_prices cycles symbols_info trade_fees min_profit_threshold
      l2 st0
    rw [← h1, ← h2]
    exact hfinal q'
  by_cases hq : ∃ c ∈ cycles, c.str = q
  · obtain ⟨c, hc, hcq⟩ := hq
    subst hcq
    have hinjc : ∀ c2 ∈ cycles, c2.str = c.str → c2 = c :=
      fun c2 hc2 h => hinj c2 hc2 c hc h
    rw [processFrames_profits_char cycles symbols_info trade_fees min_profit_threshold
      c hc hinjc (hsi c hc) l1 st0]
    rw [processFrames_profits_char cycles symbols_info trade_fees min_profit_threshold
      c hc hinjc (hsi c hc) l2 st0]
    have htouch : (∃ f ∈ l1, Frame.touches f c) ↔ ∃ f ∈ l2, Frame.touches f c := by
      constructor
      · rintro ⟨f, hf, ht⟩
        exact ⟨f, hperm.mem_iff.mp hf, ht⟩
      · rintro ⟨f, hf, ht⟩
        exact ⟨f, hperm.mem_iff.mpr hf, ht⟩
    have hguard : (∀ s ∈ c.steps, ((pricesAfter l1 st0.latest_prices) s.pair).isSome) ↔
        ∀ s ∈ c.steps, ((pricesAfter l2 st0.latest_prices) s.pair).isSome := by
      constructor
      · intro h s hs
        rw [← hfinal' s.pair]
        exact h s hs
      · intro h s hs
        rw [hfinal' s.pair]
        exact h s hs
    have hcalceq : c.calculate_profit (pricesAfter l1 st0.latest_prices)
        symbols_info trade_fees =
        c.calculate_profit (pricesAfter l2 st0.latest_prices) symbols_info trade_fees := by
      unfold Cycle.calculate_profit
      exact calculate_profit_go_congr symbols_info trade_fees _ _ c.steps 1
        (fun s _ => hfinal' s.pair)
    by_cases h1 : (∃ f ∈ l1, Frame.touches f c) ∧
        ∀ s ∈ c.steps, ((pricesAfter l1 st0.latest_prices) s.pair).isSome
    · rw [if_pos h1, if_pos ⟨htouch.mp h1.1, hguard.mp h1.2⟩, hcalceq]
    · rw [if_neg h1, if_neg (fun h2 => h1 ⟨htouch.mpr h2.1, hguard.mpr h2.2⟩)]
  · push_neg at hq
    rw [processFrames_profits_no_owner cycles symbols_info trade_fees
      min_profit_threshold l1 st0 q hq]
    rw [processFrames_profits_no_owner cycles symbols_info trade_fees
      min_profit_threshold l2 st0 q hq]

/-- The monitored cycle of the C5 witness: `A → B → A` over the pairs `P`
(BUY) and `Q` (SELL). -/
def c5Cycle : Cycle :=
  { coins := ["A", "B", "A"], steps := [⟨"P", "A", "B"⟩, ⟨"Q", "B", "A"⟩] }

/-- Complete metadata for the C5 witness. -/
def c5Symbols : String → Option SymbolInfo := fun p =>
  if p = "P" then some ⟨"B", "A", "TRADING"⟩
  else if p = "Q" then some ⟨"B", "A", "TRADING"⟩
  else none

/-- Empty starting state for the C5 witness. -/
def c5State : MonitorState :=
  { latest_prices := fun _ => none
    latest_profits_by_cycle := fun _ => none
    opportunities := [] }

/-- The two frames of the C5 witness, in stream order. -/
def c5Frames1 : List Frame := [⟨"P", 2, 2⟩, ⟨"Q", 3, 3⟩]

/-- The same two frames in the opposite interleaving. -/
def c5Frames2 : List Frame := [⟨"Q", 3, 3⟩, ⟨"P", 2, 2⟩]

/-- C5 witness: both interleavings of the `P` and `Q` ticks leave the same
final profit for the monitored cycle. -/
theorem processFrames_perm_invariant_witness :
    (processFrames [c5Cycle] c5Symbols (fun _ => none) 0 c5Frames1
        c5State).latest_profits_by_cycle "A -> B -> A" =
      (processFrames [c5Cycle] c5Symbols (fun _ => none) 0 c5Frames2
        c5State).latest_profits_by_cycle "A -> B -> A" :=
  processFrames_perm_invariant [c5Cycle] c5Symbols (fun _ => none) 0 c5State
    c5Frames1 c5Frames2 (by decide) (by decide) (by decide)
    (by
      intro q
      rw [processFrames_prices, processFrames_prices]
      by_cases hP : q = "P"
      · simp [pricesAfter, updatePrice, c5Frames1, c5Frames2, c5State, hP]
      · by_cases hQ : q = "Q"
        · simp [pricesAfter, updatePrice, c5Frames1, c5Frames2, c5State, hQ]
        · simp [pricesAfter, updatePrice, c5Frames1, c5Frames2, c5State, hP, hQ])
    "A -> B -> A"

/-! ## Exchange adapter (src/cli_monitor/common/binance_client.py) -/

/-- The outcome of one underlying python-binance API call: a successful
payload, a venue API/request exception (`BinanceAPIException` /
`BinanceRequestException`), or a transport-level error (e.g. a
`requests.ConnectionError`, which those two except-clauses do not catch). -/
inductive ApiAttempt (α : Type) where
  | success (v : α)
  | apiError
  | transportError
  deriving DecidableEq

/-- `BinanceClient.get_exchange_info` (binance_client.py lines 144-155): a
single `try`/`except` around one call to the underlying client; an API or
request exception is caught, logged, and turned into `None`; a transport
error propagates to the caller (`Except.error`).  The venue's behaviour is
modelled as the list of outcomes successive attempts would see — the method
only ever consumes the head.  `get_24h_ticker`, `get_trade_fees` and the
other REST wrappers in the file have exactly the same single-attempt
shape. -/
def BinanceClient.get_exchange_info {α : Type} (attempts : List (ApiAttempt α)) :
    Except Unit (Option α) :=
  match attempts with
  | [] => Except.error ()
  | att :: _ =>
    match att with
    | ApiAttempt.success v => Except.ok (some v)
    | ApiAttempt.apiError => Except.ok none
    | ApiAttempt.transportError => Except.error ()

/-- Modelled from the spec: the retry combinator that the specification's
retry policy (exponential backoff, up to 5 attempts over transport errors,
venue 5xx and venue request-exceptions) and the repository's own
`tests/common/test_binance_client_resilience.py` (which asserts tenacity
retries: two `ConnectionError`s then success, and `RetryError` after 5
failed attempts) require around every REST call.  No such combinator exists
anywhere under src/.  Backoff timing does not affect the returned value and
is not modelled; an exhausted policy surfaces a typed failure. -/
def retriedCall {α : Type} (maxAttempts : ℕ) (attempts : List (ApiAttempt α)) :
    Except Unit (Option α) :=
  match maxAttempts, attempts with
  | 0, _ => Except.error ()
  | _ + 1, [] => Except.error ()
  | n + 1, att :: rest =>
    match att with
    | ApiAttempt.success v => Except.ok (some v)
    | ApiAttempt.apiError => retriedCall n rest
    | ApiAttempt.transportError => retriedCall n rest

/-- C9 (code bug): the adapter performs no retries.  On the exact sequence
the repository's resilience test mocks — a transient transport error
followed by a successful attempt — `get_exchange_info` surfaces the error
immediately, while the 5-attempt retry policy of the spec (and of the tests)
would return the payload; and in general the client's result depends only on
the first attempt, so no second attempt is ever made. -/
theorem get_exchange_info_no_retry :
    BinanceClient.get_exchange_info
        [ApiAttempt.transportError, ApiAttempt.success (0 : ℕ)] = Except.error () ∧
      retriedCall 5 [ApiAttempt.transportError, ApiAttempt.success (0 : ℕ)] =
        Except.ok (some 0) ∧
      ∀ (att : ApiAttempt ℕ) (rest1 rest2 : List (ApiAttempt ℕ)),
        BinanceClient.get_exchange_info (att :: rest1) =
          BinanceClient.get_exchange_info (att :: rest2) := by
  refine ⟨rfl, rfl, fun att rest1 rest2 => ?_⟩
  cases att <;> rfl

end CliMonitor
